import Mathlib

/-!
Verification development for the four-room grid-world PPO scripts
(`ppo_rnd.py` and `ppo_rle.py`).  The numeric code is embedded shallowly
over `ℚ`: torch tensors become lists or index functions, float scalars
become rationals, and the transcendental square root / exponential are
abstracted as function parameters where they occur.
-/

namespace FourRoomPPO

/-- Arithmetic mean of a list of rationals (`torch.mean`); the empty list
yields `0` because division by zero is `0` in `ℚ`. -/
def listMean (l : List ℚ) : ℚ := l.sum / l.length

/-- Unbiased sample variance of a list of rationals (`torch.var`, which
defaults to the Bessel-corrected estimator dividing by `n - 1`). -/
def listVarUnbiased (l : List ℚ) : ℚ :=
  (l.map (fun a => (a - listMean l) ^ 2)).sum / ((l.length : ℚ) - 1)

/-- Embedding of `update_mean_var_count_from_moments` from
`ppo_rnd.py`: the parallel-merge update of (mean, var, count). -/
def update_mean_var_count_from_moments
    (mean var count batch_mean batch_var batch_count : ℚ) : ℚ × ℚ × ℚ :=
  let delta := batch_mean - mean
  let tot_count := count + batch_count
  let new_mean := mean + delta * batch_count / tot_count
  let m_a := var * count
  let m_b := batch_var * batch_count
  let M2 := m_a + m_b + delta ^ 2 * count * batch_count / tot_count
  let new_var := M2 / tot_count
  let new_count := tot_count
  (new_mean, new_var, new_count)

/-- State of `RunningMeanStd` from `ppo_rnd.py` (scalar shape). -/
structure RunningMeanStd where
  mean : ℚ
  var : ℚ
  count : ℚ
  deriving DecidableEq

/-- Embedding of `RunningMeanStd.update_from_moments`. -/
def RunningMeanStd.update_from_moments (s : RunningMeanStd)
    (batch_mean batch_var batch_count : ℚ) : RunningMeanStd :=
  let r := update_mean_var_count_from_moments
    s.mean s.var s.count batch_mean batch_var batch_count
  ⟨r.1, r.2.1, r.2.2⟩

/-- Embedding of `RunningMeanStd.update`: folds a batch of samples using
the batch's mean, unbiased variance (`torch.var`) and length. -/
def RunningMeanStd.update (s : RunningMeanStd) (x : List ℚ) : RunningMeanStd :=
  s.update_from_moments (listMean x) (listVarUnbiased x) x.length

/-- The parallel-merge identity exactly as the spec states it
(for the refinement comparison with the source function). -/
def specMergeMoments
    (mean var count batch_mean batch_var batch_count : ℚ) : ℚ × ℚ × ℚ :=
  let delta := batch_mean - mean
  let total := count + batch_count
  (mean + delta * batch_count / total,
   (var * count + batch_var * batch_count
      + delta ^ 2 * count * batch_count / total) / total,
   total)

/-- Merge of two `RunningMeanStd` states, treating the second as a batch
of moments; this is what `update_from_moments` does to the state. -/
def mergeRMS (s b : RunningMeanStd) : RunningMeanStd :=
  s.update_from_moments b.mean b.var b.count

theorem mergeRMS_mean (s b : RunningMeanStd) :
    (mergeRMS s b).mean
      = s.mean + (b.mean - s.mean) * b.count / (s.count + b.count) := rfl

theorem mergeRMS_var (s b : RunningMeanStd) :
    (mergeRMS s b).var
      = (s.var * s.count + b.var * b.count
          + (b.mean - s.mean) ^ 2 * s.count * b.count / (s.count + b.count))
        / (s.count + b.count) := rfl

theorem mergeRMS_count (s b : RunningMeanStd) :
    (mergeRMS s b).count = s.count + b.count := rfl

theorem mergeRMS_assoc (s b c : RunningMeanStd)
    (hs : 0 < s.count) (hb : 0 < b.count) (hc : 0 < c.count) :
    mergeRMS (mergeRMS s b) c = mergeRMS s (mergeRMS b c) := by
  obtain ⟨m, v, n⟩ := s
  obtain ⟨mB, vB, nB⟩ := b
  obtain ⟨mC, vC, nC⟩ := c
  have hn : (0 : ℚ) < n := hs
  have hnB : (0 : ℚ) < nB := hb
  have hnC : (0 : ℚ) < nC := hc
  have h1 : n + nB ≠ 0 := by positivity
  have h2 : nB + nC ≠ 0 := by positivity
  have h3 : n + nB + nC ≠ 0 := by positivity
  have h4 : n + (nB + nC) ≠ 0 := by positivity
  simp only [mergeRMS, RunningMeanStd.update_from_moments,
    update_mean_var_count_from_moments, RunningMeanStd.mk.injEq]
  refine ⟨?_, ?_, ?_⟩
  · field_simp
    ring
  · field_simp
    ring
  · ring

/-- Claim C4: `update_from_moments` implements exactly the spec's
parallel-merge identity, and an update with `batch_count = 0` (equivalently,
`update` on an empty batch) leaves the running (mean, variance, count)
unchanged, given the invariant `count ≠ 0` (count starts at a positive
epsilon and only grows). -/
theorem C4_running_statistic_merge (mean var count bm bv bc : ℚ)
    (hcount : count ≠ 0) :
    update_mean_var_count_from_moments mean var count bm bv bc
        = specMergeMoments mean var count bm bv bc
    ∧ (RunningMeanStd.mk mean var count).update_from_moments bm bv 0
        = ⟨mean, var, count⟩
    ∧ (RunningMeanStd.mk mean var count).update [] = ⟨mean, var, count⟩ := by
  refine ⟨rfl, ?_, ?_⟩
  · simp only [RunningMeanStd.update_from_moments,
      update_mean_var_count_from_moments, RunningMeanStd.mk.injEq]
    refine ⟨by ring_nf, ?_, by ring⟩
    field_simp
  · simp only [RunningMeanStd.update, RunningMeanStd.update_from_moments,
      update_mean_var_count_from_moments, listMean, listVarUnbiased,
      List.length_nil, List.sum_nil, List.map_nil, RunningMeanStd.mk.injEq]
    norm_num
    field_simp

/-- Concrete instance of claim C4 at mean 0, variance 1, count 1. -/
theorem C4_running_statistic_merge_witness :
    update_mean_var_count_from_moments 0 1 1 2 3 0
        = specMergeMoments 0 1 1 2 3 0
    ∧ (RunningMeanStd.mk 0 1 1).update_from_moments 2 3 0 = ⟨0, 1, 1⟩
    ∧ (RunningMeanStd.mk 0 1 1).update [] = ⟨0, 1, 1⟩ :=
  C4_running_statistic_merge 0 1 1 2 3 0 (by norm_num)

/-- Claim C5: the running-statistic merge is associative in exact
arithmetic: merging batches A then B into the statistic and then C gives
the same (mean, variance, count) as merging A and then the combined
moments of B and C, provided all counts are positive. -/
theorem C5_merge_associative (s a b c : RunningMeanStd)
    (hs : 0 < s.count) (ha : 0 < a.count) (hb : 0 < b.count)
    (hc : 0 < c.count) :
    mergeRMS (mergeRMS (mergeRMS s a) b) c
      = mergeRMS (mergeRMS s a) (mergeRMS b c) := by
  have hsa : 0 < (mergeRMS s a).count := by
    rw [mergeRMS_count]; positivity
  exact mergeRMS_assoc (mergeRMS s a) b c hsa hb hc

/-- Concrete instance of claim C5. -/
theorem C5_merge_associative_witness :
    mergeRMS (mergeRMS (mergeRMS ⟨0, 1, 1⟩ ⟨2, 1, 3⟩) ⟨5, 2, 1⟩) ⟨7, 4, 2⟩
      = mergeRMS (mergeRMS ⟨0, 1, 1⟩ ⟨2, 1, 3⟩) (mergeRMS ⟨5, 2, 1⟩ ⟨7, 4, 2⟩) :=
  C5_merge_associative ⟨0, 1, 1⟩ ⟨2, 1, 3⟩ ⟨5, 2, 1⟩ ⟨7, 4, 2⟩
    (by norm_num) (by norm_num) (by norm_num) (by norm_num)

/-- State of `RewardForwardFilter` from `ppo_rnd.py`: a per-environment
accumulator vector (`rewems`, `None` before the first update) and the
discount `gamma`. -/
structure RewardForwardFilter where
  rewems : Option (List ℚ)
  gamma : ℚ
  deriving DecidableEq

/-- Embedding of `RewardForwardFilter.update`.  With a `not_done` mask and
an existing accumulator, only the slots whose mask equals `1.0` are
updated in place to `rewems * gamma + rews`; all other slots keep their
previous accumulator value.  On the first call (`rewems is None`) the
accumulator is initialised to the raw rewards regardless of the mask.
Returns the (copied) accumulator vector together with the new state. -/
def RewardForwardFilter.update (f : RewardForwardFilter) (rews : List ℚ)
    (not_done : Option (List Bool)) : List ℚ × RewardForwardFilter :=
  match not_done with
  | none =>
    match f.rewems with
    | none => (rews, ⟨some rews, f.gamma⟩)
    | some acc =>
      let newAcc := List.zipWith (fun a r => a * f.gamma + r) acc rews
      (newAcc, ⟨some newAcc, f.gamma⟩)
  | some nd =>
    match f.rewems with
    | none => (rews, ⟨some rews, f.gamma⟩)
    | some acc =>
      let newAcc := List.zipWith
        (fun (ar : ℚ × ℚ) (b : Bool) =>
          if b then ar.1 * f.gamma + ar.2 else ar.1)
        (acc.zip rews) nd
      (newAcc, ⟨some newAcc, f.gamma⟩)

/-- The three successive `update` calls of the spec's worked example:
a single environment, `gamma = 1/2`, rewards `[1, 1, 1]` and `not_done`
flags `[1, 1, 0]`, starting from a fresh filter. -/
def exampleFilterOutputs : List (List ℚ) :=
  let f0 : RewardForwardFilter := ⟨none, 1 / 2⟩
  let s1 := f0.update [1] (some [true])
  let s2 := s1.2.update [1] (some [true])
  let s3 := s2.2.update [1] (some [false])
  [s1.1, s2.1, s3.1]

theorem exampleFilterOutputs_eq :
    exampleFilterOutputs = [[1], [3 / 2], [3 / 2]] := by
  norm_num [exampleFilterOutputs, RewardForwardFilter.update]

theorem getD_zipWith {α β γ : Type} (f : α → β → γ) (l1 : List α)
    (l2 : List β) (i : ℕ) (h1 : i < l1.length) (h2 : i < l2.length)
    (d1 : α) (d2 : β) (d3 : γ) :
    (List.zipWith f l1 l2).getD i d3 = f (l1.getD i d1) (l2.getD i d2) := by
  induction l1 generalizing l2 i with
  | nil => simp at h1
  | cons a l ih =>
    cases l2 with
    | nil => simp at h2
    | cons b l2 =>
      cases i with
      | zero => rfl
      | succ j =>
        simp only [List.zipWith_cons_cons, List.getD_cons_succ]
        exact ih l2 j (by simpa using h1) (by simpa using h2)

/-- Claim C1, counterexample: on the spec's own worked example the code
returns `[1, 3/2, 3/2]`, not `[1, 3/2, 1]` — the slot whose `not_done`
flag is false is left unchanged rather than reset to the raw reward. -/
theorem C1_counterexample :
    exampleFilterOutputs = [[1], [3 / 2], [3 / 2]]
    ∧ exampleFilterOutputs ≠ [[1], [3 / 2], [1]] := by
  rw [exampleFilterOutputs_eq]
  norm_num

/-- Claim C1 as amended: for every `update(rewards, not_done)` call on a
filter whose accumulator is already initialised, each slot with
`not_done` true becomes `accumulator * gamma + reward`, each slot with
`not_done` false keeps its previous accumulator value unchanged (it is
not reset to the raw reward), the updated accumulator vector is both
returned and stored, and on the worked example the three returned
values are `[1, 3/2, 3/2]`. -/
theorem C1_amended (f : RewardForwardFilter) (acc rews : List ℚ)
    (nd : List Bool) (i : ℕ) (hacc : f.rewems = some acc)
    (hi : i < acc.length) (hr : acc.length ≤ rews.length)
    (hn : acc.length ≤ nd.length) :
    ((f.update rews (some nd)).1.getD i 0
        = if nd.getD i false then acc.getD i 0 * f.gamma + rews.getD i 0
          else acc.getD i 0)
    ∧ (f.update rews (some nd)).2.rewems = some (f.update rews (some nd)).1
    ∧ exampleFilterOutputs = [[1], [3 / 2], [3 / 2]] := by
  refine ⟨?_, ?_, exampleFilterOutputs_eq⟩
  · simp only [RewardForwardFilter.update, hacc]
    have hzip : i < (acc.zip rews).length := by
      simp only [List.length_zip]
      omega
    rw [getD_zipWith _ _ _ i hzip (by omega) (0, 0) false]
    rcases h : nd.getD i false with _ | _
    · simp only [Bool.false_eq_true, if_false]
      rw [List.getD_eq_getElem _ _ hzip, List.getElem_zip]
      simp [List.getD_eq_getElem, hi]
    · simp only [if_true]
      rw [List.getD_eq_getElem _ _ hzip, List.getElem_zip]
      have hir : i < rews.length := by omega
      simp [List.getD_eq_getElem, hi, hir]
  · simp only [RewardForwardFilter.update, hacc]

/-- Concrete instance of claim C1 as amended: a slot with `not_done`
false keeps its accumulator (here `5`), a slot with `not_done` true
decays (`5 * 1/2 + 3`). -/
theorem C1_amended_witness :
    ((RewardForwardFilter.mk (some [5]) (1 / 2)).update [3]
        (some [false])).1.getD 0 0 = 5
    ∧ ((RewardForwardFilter.mk (some [5]) (1 / 2)).update [3]
        (some [true])).1.getD 0 0 = 5 * (1 / 2) + 3 := by
  constructor
  · have h := C1_amended ⟨some [5], 1 / 2⟩ [5] [3] [false] 0 rfl
      (by decide) (by decide) (by decide)
    simpa using h.1
  · have h := C1_amended ⟨some [5], 1 / 2⟩ [5] [3] [true] 0 rfl
      (by decide) (by decide) (by decide)
    simpa using h.1

/-- The two runtime-derived hyperparameters computed in `parse_args`
(`ppo_rnd.py`) and in the `__main__` preamble of `ppo_rle.py`. -/
structure AlgoConfig where
  batch_size : ℕ
  minibatch_size : ℕ
  deriving DecidableEq

/-- Embedding of the configuration derivation:
`batch_size = num_envs * num_steps` and
`minibatch_size = batch_size // num_minibatches` (integer floor
division).  The `Except` return type models the possibility of failing
fast on inconsistent hyperparameters; the source performs no such
validation, so the result is always `ok`. -/
def configSetup (num_envs num_steps num_minibatches : ℕ) :
    Except String AlgoConfig :=
  Except.ok
    { batch_size := num_envs * num_steps
      minibatch_size := num_envs * num_steps / num_minibatches }

/-- Claim C3, counterexample: with `num_envs = 2`, `num_steps = 5`,
`num_minibatches = 3`, the batch size 10 is not divisible by 3, yet the
program raises no error: it silently proceeds with the floored
minibatch size 3. -/
theorem C3_counterexample :
    configSetup 2 5 3 = Except.ok ⟨10, 3⟩ ∧ ¬ (3 ∣ 10) :=
  ⟨rfl, by decide⟩

/-- Claim C3 as amended: the configuration derivation never fails,
whatever the hyperparameters; it always succeeds with
`batch_size = num_envs * num_steps` and the floor-divided
`minibatch_size`, with no divisibility check. -/
theorem C3_amended (num_envs num_steps num_minibatches : ℕ) :
    configSetup num_envs num_steps num_minibatches
      = Except.ok ⟨num_envs * num_steps,
          num_envs * num_steps / num_minibatches⟩ := rfl

/-- Row-major flattening of a `(T, N)`-shaped buffer stored as `T` rows
of `N` entries: this is what `tensor.reshape(-1)` does. -/
def reshapeFlatten {α : Type} (buf : List (List α)) : List α := buf.flatten

/-- Embedding of `torch.repeat_interleave(z, n, dim=0)` for a stack of
rows `z`: each row is repeated `n` times consecutively.  This is how
`ppo_rle.py` builds `b_latents` from the per-environment latent
vectors, with `n = num_steps`. -/
def repeat_interleave {α : Type} (z : List α) (n : ℕ) : List α :=
  (z.map (fun r => List.replicate n r)).flatten

/-- Claim C2, failing evaluation: with `T = 2` steps and `N = 3`
environments, the reshape flattening places the transition of
environment 1 at flat index 1 (entries are `(t, n)` pairs), but
`repeat_interleave` places environment 0's latent (here `100`) at flat
index 1 instead of environment 1's latent (`200`): the latent buffer is
flattened with a different index mapping than every other field. -/
theorem C2_flatten_mismatch :
    (reshapeFlatten [[(0, 0), (0, 1), (0, 2)],
        [(1, 0), (1, 1), (1, 2)]]).getD 1 (0, 0) = ((0 : ℕ), (1 : ℕ))
    ∧ (repeat_interleave [100, 200, 300] 2).getD 1 0 = (100 : ℕ)
    ∧ [100, 200, 300].getD
        ((reshapeFlatten [[(0, 0), (0, 1), (0, 2)],
          [(1, 0), (1, 1), (1, 2)]]).getD 1 (0, 0)).2 0 = (200 : ℕ)
    ∧ (100 : ℕ) ≠ 200 := by
  refine ⟨rfl, rfl, rfl, by decide⟩

/-- Cast of a boolean mask entry to a float, as produced by
`(mask < args.update_proportion).type(torch.FloatTensor)`. -/
def boolToRat (b : Bool) : ℚ := if b then 1 else 0

/-- The divisor of the averaged RND predictor loss:
`torch.max(mask.sum(), torch.tensor([1]))`. -/
def forward_loss_denominator (mask : List Bool) : ℚ :=
  max ((mask.map boolToRat).sum) 1

/-- Embedding of the masked RND forward loss from `ppo_rnd.py`:
`(forward_loss * mask).sum() / torch.max(mask.sum(), 1)`, where
`losses` are the per-sample predictor MSE values of the minibatch. -/
def forward_loss_masked (losses : List ℚ) (mask : List Bool) : ℚ :=
  (List.zipWith (fun l m => l * boolToRat m) losses mask).sum
    / forward_loss_denominator mask

theorem zipWith_mask_false_sum (losses : List ℚ) (mask : List Bool)
    (h : ∀ b ∈ mask, b = false) :
    (List.zipWith (fun l m => l * boolToRat m) losses mask).sum = 0 := by
  induction losses generalizing mask with
  | nil => simp
  | cons l ls ih =>
    cases mask with
    | nil => simp
    | cons b bs =>
      have hb : b = false := h b (List.mem_cons_self b bs)
      have hbs : ∀ x ∈ bs, x = false := fun x hx => h x (List.mem_cons_of_mem b hx)
      rw [List.zipWith_cons_cons, List.sum_cons, ih bs hbs, hb]
      simp [boolToRat]

/-- Claim C10: the divisor of the averaged RND predictor loss is
`max(number of mask-selected samples, 1)`, hence at least 1 for every
realization of the random mask, and when the mask selects zero samples
the forward loss is exactly 0. -/
theorem C10_forward_loss_masked_safe (losses : List ℚ) (mask : List Bool) :
    1 ≤ forward_loss_denominator mask
    ∧ ((∀ b ∈ mask, b = false) → forward_loss_masked losses mask = 0) := by
  constructor
  · exact le_max_right _ _
  · intro h
    rw [forward_loss_masked, zipWith_mask_false_sum losses mask h, zero_div]

/-- Concrete instance of claim C10: an all-false mask over two samples
gives forward loss 0 and divisor at least 1. -/
theorem C10_forward_loss_masked_safe_witness :
    forward_loss_masked [5, 7] [false, false] = 0
    ∧ 1 ≤ forward_loss_denominator [false, false] :=
  ⟨(C10_forward_loss_masked_safe [5, 7] [false, false]).2 (by decide),
   (C10_forward_loss_masked_safe [5, 7] [false, false]).1⟩

/-- Embedding of `torch.clamp(x, lo, hi)`. -/
def clamp (x lo hi : ℚ) : ℚ := max lo (min x hi)

/-- Embedding of the clipped value loss of one head from `ppo_rnd.py`
(the `args.clip_vloss` branch for the extrinsic head):
`0.5 * max((new - ret)^2, (old + clamp(new - old, -c, c) - ret)^2).mean()`. -/
def v_loss_head_clipped (new_values old_values rets : List ℚ)
    (clip_coef : ℚ) : ℚ :=
  let v_loss_unclipped :=
    List.zipWith (fun nv rt => (nv - rt) ^ 2) new_values rets
  let v_clipped :=
    List.zipWith (fun nv ov => ov + clamp (nv - ov) (-clip_coef) clip_coef)
      new_values old_values
  let v_loss_clipped := List.zipWith (fun vc rt => (vc - rt) ^ 2) v_clipped rets
  (1 / 2) * listMean (List.zipWith max v_loss_unclipped v_loss_clipped)

/-- Embedding of the plain (unclipped) mean-squared-error value loss of
one head: `0.5 * ((new - ret)^2).mean()`. -/
def v_loss_head_mse (new_values rets : List ℚ) : ℚ :=
  (1 / 2) * listMean (List.zipWith (fun nv rt => (nv - rt) ^ 2) new_values rets)

/-- Embedding of the total value loss of `ppo_rnd.py`: the extrinsic
head is clipped when `clip_vloss` is set, the intrinsic head is always
the plain mean-squared error, and the two are added unweighted. -/
def v_loss_code (clip_vloss : Bool)
    (new_ext old_ext ret_ext new_int ret_int : List ℚ) (clip_coef : ℚ) : ℚ :=
  (if clip_vloss then v_loss_head_clipped new_ext old_ext ret_ext clip_coef
   else v_loss_head_mse new_ext ret_ext)
  + v_loss_head_mse new_int ret_int

/-- The total value loss as claim C8 states it: when clipping is
enabled, BOTH heads use the clipped formula, and the total is their
unweighted sum. -/
def v_loss_claim (new_ext old_ext ret_ext new_int old_int ret_int : List ℚ)
    (clip_coef : ℚ) : ℚ :=
  v_loss_head_clipped new_ext old_ext ret_ext clip_coef
    + v_loss_head_clipped new_int old_int ret_int clip_coef

/-- Claim C8, counterexample: with clipping enabled, extrinsic head
data `new = old = ret = [0]` and intrinsic head data `new = [1]`,
`old = [0]`, `ret = [1]`, `clip_coef = 1/5`, the code's total value
loss is 0 (the intrinsic head is NOT clipped), while clipping both
heads as the claim states would give `8/25`. -/
theorem C8_counterexample :
    v_loss_code true [0] [0] [0] [1] [1] (1 / 5) = 0
    ∧ v_loss_claim [0] [0] [0] [1] [0] [1] (1 / 5) = 8 / 25
    ∧ (0 : ℚ) ≠ 8 / 25 := by
  refine ⟨?_, ?_, by norm_num⟩
  · norm_num [v_loss_code, v_loss_head_clipped, v_loss_head_mse, listMean,
      clamp]
  · norm_num [v_loss_claim, v_loss_head_clipped, listMean, clamp]

/-- Claim C8 as amended: when value-loss clipping is enabled, only the
extrinsic head clips the value change (to within ± the clip
coefficient, taking 0.5 times the mean of the elementwise max of
clipped and unclipped squared errors); the intrinsic head always uses
the plain 0.5-mean-squared error against its returns; the total is the
unweighted sum of the two; and the clipped value change really stays
within ± the clip coefficient whenever that coefficient is
nonnegative. -/
theorem C8_amended (clip_vloss : Bool)
    (new_ext old_ext ret_ext new_int ret_int : List ℚ) (c x : ℚ)
    (hc : 0 ≤ c) :
    v_loss_code clip_vloss new_ext old_ext ret_ext new_int ret_int c
      = (if clip_vloss then v_loss_head_clipped new_ext old_ext ret_ext c
         else v_loss_head_mse new_ext ret_ext)
        + v_loss_head_mse new_int ret_int
    ∧ -c ≤ clamp x (-c) c ∧ clamp x (-c) c ≤ c := by
  refine ⟨rfl, le_max_left _ _, ?_⟩
  rw [clamp]
  rcases le_total x c with h | h
  · have : min x c ≤ c := min_le_right _ _
    exact max_le (by linarith) this
  · exact max_le (by linarith) (min_le_right _ _)

/-- Concrete instance of claim C8 as amended. -/
theorem C8_amended_witness :
    v_loss_code true [0] [0] [0] [1] [1] (1 / 5)
      = (if true then v_loss_head_clipped [0] [0] [0] (1 / 5)
         else v_loss_head_mse [0] [0])
        + v_loss_head_mse [1] [1]
    ∧ -(1 / 5 : ℚ) ≤ clamp 3 (-(1 / 5)) (1 / 5)
    ∧ clamp 3 (-(1 / 5)) (1 / 5) ≤ 1 / 5 :=
  C8_amended true [0] [0] [0] [1] [1] (1 / 5) 3 (by norm_num)

/-- Tensor gather `l[inds]` with rational entries (indices out of range
yield 0; the optimizer only uses in-range permutation indices). -/
def gatherQ (l : List ℚ) (inds : List ℕ) : List ℚ :=
  inds.map (fun i => l.getD i 0)

/-- Embedding of the per-minibatch advantage normalization
`(mb_advantages - mb_advantages.mean()) / (mb_advantages.std() + 1e-8)`,
with the standard deviation supplied as the parameter `sd` (the square
root is transcendental and not representable in `ℚ`). -/
def normalize_advantages (adv : List ℚ) (sd : ℚ) : List ℚ :=
  adv.map (fun a => (a - listMean adv) / (sd + 1 / 100000000))

/-- Embedding of the policy-loss computation of one minibatch from
`ppo_rnd.py` / `ppo_rle.py`: gather old log-probs and advantages at the
minibatch indices, form `ratio = exp(newlogprob - oldlogprob)` (with the
exponential abstracted as `expf`), optionally normalize the gathered
advantages per-minibatch, then
`pg_loss = max(-A * ratio, -A * clamp(ratio, 1-eps, 1+eps)).mean()`. -/
def pg_loss_code (expf : ℚ → ℚ) (norm_adv : Bool)
    (b_advantages b_logprobs newlogprob : List ℚ) (mb_inds : List ℕ)
    (clip_coef sd : ℚ) : ℚ :=
  let logratio :=
    List.zipWith (fun nlp olp => nlp - olp) newlogprob (gatherQ b_logprobs mb_inds)
  let ratio := logratio.map expf
  let mb_advantages := gatherQ b_advantages mb_inds
  let mb_adv :=
    if norm_adv then normalize_advantages mb_advantages sd else mb_advantages
  let pg_loss1 := List.zipWith (fun a ra => -a * ra) mb_adv ratio
  let pg_loss2 :=
    List.zipWith (fun a ra => -a * clamp ra (1 - clip_coef) (1 + clip_coef))
      mb_adv ratio
  listMean (List.zipWith max pg_loss1 pg_loss2)

/-- The clipped surrogate policy loss exactly as the spec writes it:
`mean(max(-A·ratio, -A·clip(ratio, 1-eps, 1+eps)))`. -/
def pg_loss_spec (A ratio : List ℚ) (eps : ℚ) : ℚ :=
  listMean (List.zipWith
    (fun a ra => max (-(a * ra)) (-(a * clamp ra (1 - eps) (1 + eps)))) A ratio)

theorem zipWith_max_zipWith (f g : ℚ → ℚ → ℚ) (A R : List ℚ) :
    List.zipWith max (List.zipWith f A R) (List.zipWith g A R)
      = List.zipWith (fun a ra => max (f a ra) (g a ra)) A R := by
  induction A generalizing R with
  | nil => simp
  | cons a A ih =>
    cases R with
    | nil => simp
    | cons b R => simp [ih]

theorem sum_map_div (l : List ℚ) (f : ℚ → ℚ) (c : ℚ) :
    (l.map (fun a => f a / c)).sum = (l.map f).sum / c := by
  induction l with
  | nil => simp
  | cons a l ih => simp [ih, add_div]

theorem sum_map_sub_const (l : List ℚ) (m : ℚ) :
    (l.map (fun a => a - m)).sum = l.sum - l.length * m := by
  induction l with
  | nil => simp
  | cons a l ih =>
    simp only [List.map_cons, List.sum_cons, List.length_cons, ih]
    push_cast
    ring

theorem listMean_normalize_advantages (l : List ℚ) (sd : ℚ) (h : l ≠ []) :
    listMean (normalize_advantages l sd) = 0 := by
  have hlen : (l.length : ℚ) ≠ 0 := by
    have := List.length_pos.mpr h
    positivity
  have hsum : (l.map (fun a => (a - listMean l) / (sd + 1 / 100000000))).sum = 0 := by
    rw [sum_map_div l (fun a => a - listMean l) (sd + 1 / 100000000),
      sum_map_sub_const, listMean, mul_comm, div_mul_cancel₀ _ hlen,
      sub_self, zero_div]
  rw [listMean, normalize_advantages, List.length_map, hsum, zero_div]

/-- Claim C7: with advantage normalization enabled, the minibatch policy
loss computed by the code equals the spec's clipped surrogate formula
`mean(max(-A·ratio, -A·clip(ratio, 1-eps, 1+eps)))` applied to the
per-minibatch normalized advantages and to
`ratio = exp(new_log_prob - old_log_prob)`; and the normalization is
indeed per-minibatch and centers it: the normalized advantages of every
nonempty minibatch have mean zero, computed from that minibatch's own
mean and standard deviation. -/
theorem C7_pg_loss (expf : ℚ → ℚ)
    (b_advantages b_logprobs newlogprob : List ℚ) (mb_inds : List ℕ)
    (eps sd : ℚ) :
    pg_loss_code expf true b_advantages b_logprobs newlogprob mb_inds eps sd
      = pg_loss_spec (normalize_advantages (gatherQ b_advantages mb_inds) sd)
          ((List.zipWith (fun nlp olp => nlp - olp) newlogprob
            (gatherQ b_logprobs mb_inds)).map expf) eps
    ∧ (mb_inds ≠ [] →
        listMean (normalize_advantages (gatherQ b_advantages mb_inds) sd) = 0) := by
  constructor
  · simp only [pg_loss_code, pg_loss_spec, if_true]
    rw [zipWith_max_zipWith]
    simp only [neg_mul]
  · intro h
    apply listMean_normalize_advantages
    simp only [gatherQ, ne_eq, List.map_eq_nil_iff]
    exact h

/-- Concrete instance of claim C7 on a two-element minibatch. -/
theorem C7_pg_loss_witness :
    pg_loss_code id true [1, 2] [0, 0] [0, 0] [0, 1] (1 / 5) 1
      = pg_loss_spec (normalize_advantages (gatherQ [1, 2] [0, 1]) 1)
          ((List.zipWith (fun nlp olp => nlp - olp) [0, 0]
            (gatherQ [0, 0] [0, 1])).map id) (1 / 5)
    ∧ listMean (normalize_advantages (gatherQ [1, 2] [0, 1]) 1) = 0 :=
  ⟨(C7_pg_loss id [1, 2] [0, 0] [0, 0] [0, 1] (1 / 5) 1).1,
   (C7_pg_loss id [1, 2] [0, 0] [0, 0] [0, 1] (1 / 5) 1).2 (by decide)⟩

/-- Embedding of `ext_nextnonterminal` from the GAE loop of
`ppo_rnd.py`: at the last collected step it is `1 - next_done`
(the externally supplied flag), otherwise `1 - dones[t + 1]`. -/
def ext_nextnonterminal (T : ℕ) (dones : ℕ → ℚ) (next_done : ℚ)
    (t : ℕ) : ℚ :=
  if t = T - 1 then 1 - next_done else 1 - dones (t + 1)

/-- Embedding of `int_nextnonterminal` from the GAE loop of
`ppo_rnd.py`: the source sets it to `1.0` in both branches of the
`t == num_steps - 1` test. -/
def int_nextnonterminal (T t : ℕ) : ℚ :=
  if t = T - 1 then 1 else 1

/-- Embedding of the next-value selection of the GAE loop: the bootstrap
value at the last collected step, `values[t + 1]` otherwise. -/
def stream_nextvalues (T : ℕ) (values : ℕ → ℚ) (next_value : ℚ)
    (t : ℕ) : ℚ :=
  if t = T - 1 then next_value else values (t + 1)

/-- The TD residual `delta_t = r_t + gamma * nextvalues_t * nextnonterminal_t - V_t`
of the GAE loop. -/
def gae_delta (gamma : ℚ) (rewards values nv nt : ℕ → ℚ) (t : ℕ) : ℚ :=
  rewards t + gamma * nv t * nt t - values t

/-- The reverse GAE loop of `ppo_rnd.py` / `ppo_rle.py` unrolled:
`gae_aux j` is the value of the `lastgaelam` accumulator after the loop
iteration at `t = T - 1 - j`, starting from `lastgaelam = 0`. -/
def gae_aux (gamma lam : ℚ) (rewards values nv nt : ℕ → ℚ) (T : ℕ) :
    ℕ → ℚ
  | 0 => gae_delta gamma rewards values nv nt (T - 1)
      + gamma * lam * nt (T - 1) * 0
  | j + 1 => gae_delta gamma rewards values nv nt (T - 1 - (j + 1))
      + gamma * lam * nt (T - 1 - (j + 1))
          * gae_aux gamma lam rewards values nv nt T j

/-- `advantages[t]` as written by the reverse GAE loop. -/
def gae_advantages (gamma lam : ℚ) (rewards values nv nt : ℕ → ℚ)
    (T t : ℕ) : ℚ :=
  gae_aux gamma lam rewards values nv nt T (T - 1 - t)

/-- The extrinsic advantage stream of `ppo_rnd.py` (and the single
stream of `ppo_rle.py`): episodic mask from the done flags. -/
def ext_advantages (gamma lam : ℚ) (T : ℕ) (rewards values dones : ℕ → ℚ)
    (next_done next_value : ℚ) (t : ℕ) : ℚ :=
  gae_advantages gamma lam rewards values
    (stream_nextvalues T values next_value)
    (ext_nextnonterminal T dones next_done) T t

/-- The intrinsic advantage stream of `ppo_rnd.py`: same loop, but with
the source's `int_nextnonterminal`, which never consults the done
flags. -/
def int_advantages_code (int_gamma lam : ℚ) (T : ℕ)
    (rewards values : ℕ → ℚ) (next_value : ℚ) (t : ℕ) : ℚ :=
  gae_advantages int_gamma lam rewards values
    (stream_nextvalues T values next_value) (int_nextnonterminal T) T t

/-- `returns = advantages + values` as computed after the GAE loop. -/
def ext_returns (gamma lam : ℚ) (T : ℕ) (rewards values dones : ℕ → ℚ)
    (next_done next_value : ℚ) (t : ℕ) : ℚ :=
  ext_advantages gamma lam T rewards values dones next_done next_value t
    + values t

theorem gae_advantages_last (gamma lam : ℚ) (rewards values nv nt : ℕ → ℚ)
    (T : ℕ) :
    gae_advantages gamma lam rewards values nv nt T (T - 1)
      = gae_delta gamma rewards values nv nt (T - 1) := by
  rw [gae_advantages, Nat.sub_self, gae_aux]
  ring

theorem gae_advantages_rec (gamma lam : ℚ) (rewards values nv nt : ℕ → ℚ)
    (T t : ℕ) (h : t + 1 < T) :
    gae_advantages gamma lam rewards values nv nt T t
      = gae_delta gamma rewards values nv nt t
        + gamma * lam * nt t
            * gae_advantages gamma lam rewards values nv nt T (t + 1) := by
  have h1 : T - 1 - t = (T - 1 - (t + 1)) + 1 := by omega
  rw [gae_advantages, h1, gae_aux]
  have h2 : T - 1 - (T - 1 - (t + 1) + 1) = t := by omega
  rw [h2]
  rfl

/-- Claim C6: the advantage estimator satisfies, per environment, the
reverse-order recurrence `A_t = delta_t + gamma*lambda*(1-done_{t+1})*A_{t+1}`
with `delta_t = r_t + gamma*V_{t+1}*(1-done_{t+1}) - V_t`; at the
boundary `t = T-1` the mask uses the externally supplied next-done flag
and the value uses the bootstrap value (with the initial accumulator 0);
the return sequence is advantages plus values elementwise; and the
intrinsic (RND) stream's non-terminal mask is identically 1 at every
step including the boundary, so the intrinsic recurrence carries the
constant mask 1. -/
theorem C6_gae (gamma int_gamma lam : ℚ) (T : ℕ)
    (r rInt V VInt dones : ℕ → ℚ) (next_done next_value nvInt : ℚ) :
    (ext_advantages gamma lam T r V dones next_done next_value (T - 1)
        = r (T - 1) + gamma * next_value * (1 - next_done) - V (T - 1))
    ∧ (∀ t, t + 1 < T →
        ext_advantages gamma lam T r V dones next_done next_value t
          = (r t + gamma * V (t + 1) * (1 - dones (t + 1)) - V t)
            + gamma * lam * (1 - dones (t + 1))
                * ext_advantages gamma lam T r V dones next_done next_value
                    (t + 1))
    ∧ (∀ t, ext_returns gamma lam T r V dones next_done next_value t
        = ext_advantages gamma lam T r V dones next_done next_value t + V t)
    ∧ (∀ t, int_nextnonterminal T t = 1)
    ∧ (int_advantages_code int_gamma lam T rInt VInt nvInt (T - 1)
        = rInt (T - 1) + int_gamma * nvInt * 1 - VInt (T - 1))
    ∧ (∀ t, t + 1 < T →
        int_advantages_code int_gamma lam T rInt VInt nvInt t
          = (rInt t + int_gamma * VInt (t + 1) * 1 - VInt t)
            + int_gamma * lam * 1
                * int_advantages_code int_gamma lam T rInt VInt nvInt
                    (t + 1)) := by
  refine ⟨?_, ?_, ?_, ?_, ?_, ?_⟩
  · rw [ext_advantages, gae_advantages_last, gae_delta, stream_nextvalues,
      ext_nextnonterminal]
    simp
  · intro t ht
    have hne : t ≠ T - 1 := by omega
    simp only [ext_advantages]
    rw [gae_advantages_rec _ _ _ _ _ _ _ _ ht, gae_delta, stream_nextvalues,
      ext_nextnonterminal, if_neg hne, if_neg hne]
  · intro t
    rfl
  · intro t
    simp [int_nextnonterminal]
  · rw [int_advantages_code, gae_advantages_last, gae_delta,
      stream_nextvalues, int_nextnonterminal]
    simp
  · intro t ht
    have hne : t ≠ T - 1 := by omega
    simp only [int_advantages_code]
    rw [gae_advantages_rec _ _ _ _ _ _ _ _ ht, gae_delta, stream_nextvalues,
      int_nextnonterminal, if_neg hne, if_neg hne]

/-- Concrete instance of claim C6: the interior recurrence at `t = 0`
with `T = 2`. -/
theorem C6_gae_witness :
    ext_advantages (1 / 2) (9 / 10) 2 (fun _ => 1) (fun _ => 0) (fun _ => 0)
        0 1 0
      = ((1 : ℚ) + (1 / 2) * 0 * (1 - 0) - 0)
        + (1 / 2) * (9 / 10) * (1 - 0)
            * ext_advantages (1 / 2) (9 / 10) 2 (fun _ => 1) (fun _ => 0)
                (fun _ => 0) 0 1 1 :=
  (C6_gae (1 / 2) (1 / 2) (9 / 10) 2 (fun _ => 1) (fun _ => 1) (fun _ => 0)
    (fun _ => 0) (fun _ => 0) 0 1 1).2.1 0 (by decide)

/-- Threading of the discount filter over the collected steps:
`torch.stack([filter.update(rewards[i], not_dones[i]) for i in range(num_steps)])`
together with the filter's final state. -/
def filter_advance : RewardForwardFilter → List (List ℚ × List Bool) →
    List (List ℚ) × RewardForwardFilter
  | f, [] => ([], f)
  | f, (r, nd) :: rest =>
    let step := f.update r (some nd)
    let next := filter_advance step.2 rest
    (step.1 :: next.1, next.2)

/-- Stage 2 of the spec's reward-normalization order: fold the flattened
discounted stream into the running statistic. -/
def stage_update_rms (rms : RunningMeanStd)
    (discounted : List (List ℚ)) : RunningMeanStd :=
  rms.update (reshapeFlatten discounted)

/-- Stage 3 of the spec's reward-normalization order: divide the raw
rewards buffer elementwise by the square root of the given variance. -/
def stage_divide (sqrt_fn : ℚ → ℚ) (rewards : List (List ℚ))
    (variance : ℚ) : List (List ℚ) :=
  rewards.map (fun row => row.map (fun x => x / sqrt_fn variance))

/-- Embedding of the reward-normalization block of `ppo_rnd.py` for one
reward stream (lines 498-509): advance the per-environment discount
filter over the T collected steps, update the running statistic from
the flattened discounted stream, then divide the raw rewards buffer by
the square root of the updated variance.  The square root is abstracted
as `sqrt_fn`. -/
def reward_normalization_code (sqrt_fn : ℚ → ℚ) (f : RewardForwardFilter)
    (rms : RunningMeanStd) (rewards : List (List ℚ))
    (not_dones : List (List Bool)) :
    List (List ℚ) × RunningMeanStd × RewardForwardFilter :=
  let adv := filter_advance f (rewards.zip not_dones)
  let rms2 := rms.update (reshapeFlatten adv.1)
  let new_rewards :=
    rewards.map (fun row => row.map (fun x => x / sqrt_fn rms2.var))
  (new_rewards, rms2, adv.2)

/-- Claim C9: the reward normalization applies exactly the order
discount filter → running-statistic update → division: the returned
statistic is the old one updated with the flattened discounted stream,
the returned rewards are the raw rewards divided by the square root of
that (post-update) variance, the filter state is the one after
advancing over all T steps — and the divisor really is the std of the
discounted stream, not of the raw stream: on a concrete two-step batch
the two updated variances differ. -/
theorem C9_reward_normalization_order (sqrt_fn : ℚ → ℚ)
    (f : RewardForwardFilter) (rms : RunningMeanStd)
    (rewards : List (List ℚ)) (not_dones : List (List Bool)) :
    (reward_normalization_code sqrt_fn f rms rewards not_dones).2.1
        = stage_update_rms rms (filter_advance f (rewards.zip not_dones)).1
    ∧ (reward_normalization_code sqrt_fn f rms rewards not_dones).1
        = stage_divide sqrt_fn rewards
            (stage_update_rms rms
              (filter_advance f (rewards.zip not_dones)).1).var
    ∧ (reward_normalization_code sqrt_fn f rms rewards not_dones).2.2
        = (filter_advance f (rewards.zip not_dones)).2
    ∧ (stage_update_rms ⟨0, 1, 1⟩
        (filter_advance ⟨some [1], 1 / 2⟩
          ([[1], [1]].zip [[true], [true]])).1).var
      ≠ (stage_update_rms ⟨0, 1, 1⟩ [[1], [1]]).var := by
  refine ⟨rfl, rfl, rfl, ?_⟩
  norm_num [stage_update_rms, filter_advance, RewardForwardFilter.update,
    RunningMeanStd.update, RunningMeanStd.update_from_moments,
    update_mean_var_count_from_moments, reshapeFlatten, listMean,
    listVarUnbiased]

end FourRoomPPO
